import Mathlib

/-!
Verification of the ingestion / chunking / versioned-index / query core and of
the React frontend helpers of this repository.

The backend Python modules (chunker, version store, query engine) are not part
of the checked-in sources; definitions for them are modelled from the spec and
say so in their doc comments.  The frontend TypeScript pages are checked in and
are embedded directly (Upload.tsx `formatFileSize`, Query.tsx `filteredVersions`,
`selectVersion`, `handleKeyDown`, Compare.tsx `toggleVersionSelection`,
`Compare.submit`).
-/

/-! ## Shared data model -/

/-- Version lifecycle status, per the spec data model: `status ∈ {active, archived, deleted}`. -/
inductive VStatus where
  | active
  | archived
  | deleted
deriving DecidableEq, Repr

/-- Modelled from the spec data model (the backend registry record is not under
the checked-in sources): version id, name, description, tag set, upload
timestamp and status.  Fields not needed by any claim (archive filename,
file/chunk counts, extension set, index path) are omitted. -/
structure Version where
  version_id : String
  version_name : String
  description : String
  tags : List String
  upload_timestamp : Nat
  status : VStatus
deriving DecidableEq, Repr

/-- Version summary object as delivered to the frontend by `GET /api/versions`
(fields used by the pages embedded below). -/
structure VSummary where
  version_name : String
  version_id : String
  description : String
  tags : List String
deriving DecidableEq, Repr

/-! ## JavaScript string membership helpers -/

/-- Decidable substring test on character lists: `listContainsSub pat hay` is
`true` iff `pat` occurs contiguously inside `hay`.  This is the semantics of
JavaScript `hay.includes(pat)`. -/
def listContainsSub (pat : List Char) : List Char → Bool
  | [] => pat.isEmpty
  | c :: t => pat.isPrefixOf (c :: t) || listContainsSub pat t

/-- JavaScript `hay.includes(pat)` on strings. -/
def jsIncludes (hay pat : String) : Bool :=
  listContainsSub pat.data hay.data

/-- JavaScript `s.toLowerCase()`: lower-case the string character by
character (structurally, so concrete instances evaluate). -/
def lowerStr (s : String) : String :=
  ⟨s.data.map Char.toLower⟩

/-! ## Frontend: version search filter (Query.tsx and Compare.tsx)

Source (identical in both pages, modulo the name of the search-term state):

```
const filteredVersions = versions.filter(version =>
  version.version_name.toLowerCase().includes(searchTerm.toLowerCase()) ||
  version.version_id.toLowerCase().includes(searchTerm.toLowerCase())
)
```
-/

/-- Embedding of `filteredVersions` from Query.tsx / Compare.tsx: keep the
versions whose lower-cased name or lower-cased id contains the lower-cased
search term. -/
def filteredVersions (versions : List VSummary) (searchTerm : String) : List VSummary :=
  versions.filter (fun version =>
    jsIncludes (lowerStr version.version_name) (lowerStr searchTerm) ||
    jsIncludes (lowerStr version.version_id) (lowerStr searchTerm))

/-- Written from the spec's words, for comparison with `filteredVersions`:
"`search(query)`: case-insensitive substring match over name, description, and
tags". -/
def specSearchMatch (q : String) (v : VSummary) : Bool :=
  jsIncludes (lowerStr v.version_name) (lowerStr q) ||
  jsIncludes (lowerStr v.description) (lowerStr q) ||
  v.tags.any (fun t => jsIncludes (lowerStr t) (lowerStr q))

/-! ## Frontend: file size formatting (Upload.tsx and Docs.tsx)

Source:

```
const formatFileSize = (bytes: number): string => {
  if (bytes === 0) return '0 Bytes'
  const k = 1024
  const sizes = ['Bytes', 'KB', 'MB', 'GB']
  const i = Math.floor(Math.log(bytes) / Math.log(k))
  return parseFloat((bytes / Math.pow(k, i)).toFixed(2)) + ' ' + sizes[i]
}
```

The unit index `Math.floor(Math.log(bytes) / Math.log(1024))` is the floor of
the real base-1024 logarithm, which for a positive natural number equals
`Nat.log 1024`.  `toFixed(2)` rounds half away from zero to two decimals and
`parseFloat` drops trailing zeros; `renderFixed2` reproduces that rendering for
the nonnegative values arising here, taking the value scaled to hundredths. -/

/-- The `sizes` array of `formatFileSize`. -/
def sizes : List String := ["Bytes", "KB", "MB", "GB"]

/-- Render `m` hundredths as JavaScript renders `parseFloat(x.toFixed(2))`:
no trailing zeros, no decimal point for whole numbers. -/
def renderFixed2 (m : Nat) : String :=
  let n := m / 100
  let r := m % 100
  if r = 0 then toString n
  else if r % 10 = 0 then toString n ++ "." ++ toString (r / 10)
  else if r < 10 then toString n ++ ".0" ++ toString r
  else toString n ++ "." ++ toString r

/-- Embedding of `formatFileSize` from Upload.tsx / Docs.tsx over natural byte
counts.  An out-of-range unit index renders as JavaScript's `undefined`. -/
def formatFileSize (bytes : Nat) : String :=
  if bytes = 0 then "0 Bytes"
  else
    let i := Nat.log 1024 bytes
    let q : ℚ := (bytes : ℚ) / (1024 : ℚ) ^ i
    let m := (⌊q * 100 + 1 / 2⌋).toNat
    renderFixed2 m ++ " " ++ sizes.getD i "undefined"

/-! ## Frontend: Query.tsx version dropdown keyboard handling

Source:

```
const selectVersion = (version: any) => {
  setSelectedVersion(version)
  setVersionId(version ? version.version_id : '')
  setIsVersionDropdownOpen(false)
  setVersionSearchTerm('')
}

const handleKeyDown = (e) => {
  if (!isVersionDropdownOpen && !showSuggestions) return
  const totalOptions = filteredVersions.length + 1 // +1 for "Latest version"
  switch (e.key) {
    case 'ArrowDown': setHighlightedIndex(prev => (prev + 1) % totalOptions); break
    case 'ArrowUp': setHighlightedIndex(prev => prev <= 0 ? totalOptions - 1 : prev - 1); break
    case 'Enter':
      if (highlightedIndex === 0) selectVersion(null)
      else if (highlightedIndex > 0) selectVersion(filteredVersions[highlightedIndex - 1])
      break
    case 'Escape': setIsVersionDropdownOpen(false); setHighlightedIndex(-1); break
  }
}
```

with `showSuggestions = versionSearchTerm.length > 0 && filteredVersions.length > 0`.
-/

/-- JavaScript `%` (truncating remainder) for the integer dividends and the
positive divisors arising in the dropdown code. -/
def jsRem (a b : Int) : Int :=
  if a < 0 then -((-a) % b) else a % b

/-- The keys the dropdown handler reacts to. -/
inductive Key where
  | arrowDown
  | arrowUp
  | enter
  | escape
  | other
deriving DecidableEq, Repr

/-- The React state touched by the Query.tsx dropdown code. -/
structure QPState where
  versionSearchTerm : String
  isVersionDropdownOpen : Bool
  highlightedIndex : Int
  selectedVersion : Option VSummary
  versionId : String
deriving DecidableEq, Repr

/-- Embedding of `selectVersion` from Query.tsx (`null` is `none`). -/
def selectVersion (s : QPState) (version : Option VSummary) : QPState :=
  { s with
    selectedVersion := version
    versionId := match version with
      | some v => v.version_id
      | none => ""
    isVersionDropdownOpen := false
    versionSearchTerm := "" }

/-- Embedding of `handleKeyDown` from Query.tsx.  The JavaScript out-of-range
access `filteredVersions[highlightedIndex - 1]` yielding `undefined` is the
`none` case of the list lookup, and `selectVersion(undefined)` behaves as
`selectVersion(null)`. -/
def handleKeyDown (versions : List VSummary) (s : QPState) (k : Key) : QPState :=
  let filtered := filteredVersions versions s.versionSearchTerm
  let showSuggestions := decide (0 < s.versionSearchTerm.length) && decide (0 < filtered.length)
  if !s.isVersionDropdownOpen && !showSuggestions then s
  else
    let totalOptions : Int := filtered.length + 1
    match k with
    | Key.arrowDown => { s with highlightedIndex := jsRem (s.highlightedIndex + 1) totalOptions }
    | Key.arrowUp =>
        { s with highlightedIndex :=
            if s.highlightedIndex ≤ 0 then totalOptions - 1 else s.highlightedIndex - 1 }
    | Key.enter =>
        if s.highlightedIndex = 0 then selectVersion s none
        else if 0 < s.highlightedIndex then
          selectVersion s (filtered[(s.highlightedIndex - 1).toNat]?)
        else s
    | Key.escape => { s with isVersionDropdownOpen := false, highlightedIndex := -1 }
    | Key.other => s

/-! ## Frontend: Compare.tsx selection toggling

Source:

```
const toggleVersionSelection = (versionId: string) => {
  setSelectedVersions(prev =>
    prev.includes(versionId)
      ? prev.filter(id => id !== versionId)
      : [...prev, versionId]
  )
}
```
-/

/-- Embedding of `toggleVersionSelection` from Compare.tsx. -/
def toggleVersionSelection (prev : List String) (versionId : String) : List String :=
  if prev.contains versionId then prev.filter (fun id => id != versionId)
  else prev ++ [versionId]

/-! ## Chunker (modelled from the spec)

The chunker implementation is not under the checked-in sources; the strategies
below are modelled from spec §4.2.  File content is a list of characters, `W`
is the configured maximum chunk size and `O` the configured overlap. -/

/-- Clamped stride of the fallback strategy: advance by the window chosen by
the separator-preference function `pick`, at least one character, at most the
window size minus the overlap, and never past the end of the content. -/
def strideOf (W O : Nat) (pick : List Char → Nat) (s : List Char) : Nat :=
  min (max 1 (min (pick s) (W - O))) s.length

/-- Modelled from the spec: the fallback strategy's "recursive character-window
splitting with configurable window size and overlap; separators tried in order
of semantic significance".  The separator preference is abstracted as the
function `pick` choosing how far the next split point lies; each emitted chunk
extends `O` characters past the next chunk's start, duplicating the overlap.
The fuel argument is the recursion bound (`fallbackChunks` passes the content
length, which always suffices since the stride is positive). -/
def fallbackChunksAux (W O : Nat) (pick : List Char → Nat) : Nat → List Char → List (List Char)
  | _, [] => []
  | 0, _ :: _ => []
  | fuel + 1, c :: t =>
    if strideOf W O pick (c :: t) = (c :: t).length then [c :: t]
    else
      (c :: t).take (strideOf W O pick (c :: t) + O) ::
        fallbackChunksAux W O pick fuel ((c :: t).drop (strideOf W O pick (c :: t)))

/-- The fallback strategy (spec §4.2, fourth tier). -/
def fallbackChunks (W O : Nat) (pick : List Char → Nat) (s : List Char) : List (List Char) :=
  fallbackChunksAux W O pick s.length s

/-- Splitting scan of the heading-aware strategy: a new section starts at every
line beginning with `#`.  `lineStart` records whether the scan is at the start
of a line, `cur` holds the current section reversed. -/
def sectionsAux (lineStart : Bool) (cur : List Char) : List Char → List (List Char)
  | [] => [cur.reverse]
  | c :: t =>
    if lineStart && c == '#' && !cur.isEmpty then
      cur.reverse :: sectionsAux (c == '\n') [c] t
    else
      sectionsAux (c == '\n') (c :: cur) t

/-- Modelled from the spec: the heading-aware strategy's "split on heading
boundaries" (empty files produce zero chunks). -/
def splitSections (s : List Char) : List (List Char) :=
  match s with
  | [] => []
  | c :: t => sectionsAux true [] (c :: t)

/-- Modelled from the spec: "any section exceeding the maximum chunk size is
recursively split using the fallback strategy". -/
def sectionChunks (W O : Nat) (pick : List Char → Nat) (sec : List Char) : List (List Char) :=
  if sec.length ≤ W then [sec] else fallbackChunks W O pick sec

/-- The heading-aware strategy's chunks, grouped by section (chunks of one
group are adjacent in the emitted sequence, in this order). -/
def headingChunkGroups (W O : Nat) (pick : List Char → Nat) (s : List Char) :
    List (List (List Char)) :=
  (splitSections s).map (sectionChunks W O pick)

/-- The heading-aware strategy's chunk sequence. -/
def headingChunks (W O : Nat) (pick : List Char → Nat) (s : List Char) : List (List Char) :=
  (headingChunkGroups W O pick s).flatten

/-- Modelled from the spec: the pattern-based strategy "detect[s] function and
class boundaries ...; chunk by detected block; unmatched regions become generic
blocks" — a partition of the content into consecutive blocks, with the detector
abstracted as the block-length function `blockLen` (no size clamping is
described for this strategy).  Fueled like `fallbackChunksAux`. -/
def patternChunksAux (blockLen : List Char → Nat) : Nat → List Char → List (List Char)
  | _, [] => []
  | 0, _ :: _ => []
  | fuel + 1, c :: t =>
    (c :: t).take (min (max 1 (blockLen (c :: t))) (c :: t).length) ::
      patternChunksAux blockLen fuel
        ((c :: t).drop (min (max 1 (blockLen (c :: t))) (c :: t).length))

/-- The pattern-based strategy (spec §4.2, second tier). -/
def patternChunks (blockLen : List Char → Nat) (s : List Char) : List (List Char) :=
  patternChunksAux blockLen s.length s

/-- A top-level block found by the structured-source strategy's parser: the
verbatim source span and the synthesized signature line of spec §4.2. -/
structure TopB where
  sig : List Char
  span : List Char
deriving DecidableEq, Repr

/-- The source content a parsed block list came from: the concatenation of the
verbatim spans. -/
def sourceOf (blocks : List TopB) : List Char :=
  (blocks.map TopB.span).flatten

/-- Modelled from the spec: the structured-source strategy emits "one chunk per
top-level function, class, and import block, each chunk containing the verbatim
source span (including leading docstring/comment if attached) plus a
synthesized signature line". -/
def structuredChunks (blocks : List TopB) : List (List Char) :=
  blocks.map (fun b => b.sig ++ b.span)

/-- Concatenation of a chunk sequence "modulo the configured overlap duplicated
between adjacent chunks": every chunk after the first drops the `O` characters
it shares with its predecessor. -/
def reconChunks (O : Nat) : List (List Char) → List Char
  | [] => []
  | c :: rest => c ++ (rest.map (List.drop O)).flatten

/-! ## Version store and query engine (modelled from the spec) -/

/-- Error kinds of the version store (spec §7 taxonomy, restricted to the kinds
the claims mention). -/
inductive StoreError where
  | validationError
  | storageError
deriving DecidableEq, Repr

/-- Registry plus the set of persisted vector indexes, identified by the id of
the version owning each index. -/
structure StoreState where
  registry : List Version
  indexes : List String
deriving DecidableEq, Repr

/-- Modelled from the spec: `createVersion(name, description, tags, chunks)`
"generates the version id [deterministically from version name + ingestion
timestamp], persists metadata, creates a new isolated Vector Index ...  Fails
with ValidationError if name is empty; fails with StorageError if index
creation cannot be persisted (registry update is not committed in that case)".
`persistOk` abstracts whether index creation can be persisted; the state is
returned unchanged on every failure. -/
def createVersion (persistOk : String → Bool) (st : StoreState) (name descr : String)
    (tags : List String) (ts : Nat) (chunks : List String) :
    Except StoreError Version × StoreState :=
  if name = "" then (Except.error StoreError.validationError, st)
  else
    let vid := name ++ "-" ++ toString ts
    if persistOk vid then
      let v : Version :=
        { version_id := vid, version_name := name, description := descr, tags := tags,
          upload_timestamp := ts, status := VStatus.active }
      (Except.ok v, { registry := st.registry ++ [v], indexes := st.indexes ++ [vid ++ "/" ++ toString chunks.length] })
    else (Except.error StoreError.storageError, st)

/-- Modelled from the spec: `resolveLatest()` returns the "highest-timestamp
version with status active; null if none exist". -/
def resolveLatest (vs : List Version) : Option Version :=
  (vs.filter (fun v => decide (v.status = VStatus.active))).argmax
    (fun v => v.upload_timestamp)

/-- Modelled from the spec: `get(versionId)` "fails with NotFound if absent or
status is deleted". -/
def getVersion (vs : List Version) (vid : String) : Option Version :=
  match vs.find? (fun v => v.version_id == vid) with
  | none => none
  | some v => if v.status = VStatus.deleted then none else some v

/-- Query-path error kinds (spec §7). -/
inductive QueryError where
  | notFound
  | emptyCorpus
  | generationFailure
deriving DecidableEq, Repr

/-- External calls a query performs: a similarity-search retrieval against one
version's index, or a generative-model call. -/
inductive CallEvent where
  | retrieval (versionId : String)
  | generation
deriving DecidableEq, Repr

/-- The four-step pipeline after version resolution (spec §4.6): retrieve
against the resolved version's index, assemble the context, call the generative
model, attribute sources.  `retrieve` and `generate` abstract the external
services; the second component records the external calls performed. -/
def runPipeline (retrieve : String → List String) (generate : String → Except Unit String)
    (q : String) (v : Version) : Except QueryError String × List CallEvent :=
  let ctx := String.intercalate "\n" (retrieve v.version_id)
  match generate (ctx ++ "\n" ++ q) with
  | Except.ok ans => (Except.ok ans, [CallEvent.retrieval v.version_id, CallEvent.generation])
  | Except.error _ =>
      (Except.error QueryError.generationFailure,
        [CallEvent.retrieval v.version_id, CallEvent.generation])

/-- Modelled from the spec: the query engine's "Resolve Version" step — "if a
version id is supplied, fetch it (fails NotFound if absent/deleted); else
resolve latest (fails EmptyCorpus if no versions exist)" — followed by the
pipeline. -/
def runQuery (vs : List Version) (retrieve : String → List String)
    (generate : String → Except Unit String) (q : String) (versionId : Option String) :
    Except QueryError String × List CallEvent :=
  match versionId with
  | some vid =>
    match getVersion vs vid with
    | none => (Except.error QueryError.notFound, [])
    | some v => runPipeline retrieve generate q v
  | none =>
    match resolveLatest vs with
    | none => (Except.error QueryError.emptyCorpus, [])
    | some v => runPipeline retrieve generate q v

instance : DecidableEq (Except String String) := fun a b =>
  match a, b with
  | Except.ok x, Except.ok y =>
      if h : x = y then isTrue (by rw [h]) else isFalse (by simp [h])
  | Except.error x, Except.error y =>
      if h : x = y then isTrue (by rw [h]) else isFalse (by simp [h])
  | Except.ok _, Except.error _ => isFalse (by simp)
  | Except.error _, Except.ok _ => isFalse (by simp)

/-- One entry of a comparison result: the requested version id and that
version's independent outcome (a per-version failure is captured in the entry,
as an error value, rather than aborting the comparison). -/
structure CompareEntry where
  version_id : String
  outcome : Except String String
deriving DecidableEq, Repr

/-- Modelled from the spec: `compare(text, versionIds)` — ValidationError for
"fewer than 2 versions for comparison", otherwise "runs the four-step pipeline
independently per version, continuing past per-version failures ... and
returns one result per version plus the total count".  `runOne` abstracts the
per-version pipeline; the second component records which version ids a
per-version query was run for.  The frontend guard in `Compare.submit`
(`if (selectedVersions.length < 2) { setError(...); return }`) mirrors the
same check. -/
def compareVersions (runOne : String → String → Except String String) (q : String)
    (ids : List String) : Except StoreError (List CompareEntry × Nat) × List String :=
  if ids.length < 2 then (Except.error StoreError.validationError, [])
  else
    (Except.ok (ids.map (fun vid => { version_id := vid, outcome := runOne q vid }), ids.length),
      ids)

/-! ## Claim theorems -/

/-- C3: a `createVersion` call with an empty version name fails with
ValidationError and is rejected with no side effects: the returned state is the
input state, so no version record and no vector index is persisted. -/
theorem createVersion_empty_name_rejected (persistOk : String → Bool) (st : StoreState)
    (descr : String) (tags : List String) (ts : Nat) (chunks : List String) :
    createVersion persistOk st "" descr tags ts chunks =
      (Except.error StoreError.validationError, st) ∧
    (createVersion persistOk st "" descr tags ts chunks).2.registry = st.registry ∧
    (createVersion persistOk st "" descr tags ts chunks).2.indexes = st.indexes := by
  refine ⟨?_, ?_, ?_⟩ <;> simp [createVersion]

/-- Helper: the comparison entries built from a list of ids echo those ids. -/
theorem map_entry_version_id (f : String → Except String String) (ids : List String) :
    (ids.map (fun vid => ({ version_id := vid, outcome := f vid } : CompareEntry))).map
      CompareEntry.version_id = ids := by
  induction ids with
  | nil => rfl
  | cons a t ih => simp only [List.map_cons, ih]

/-- C1: `compare` with fewer than two version ids fails with ValidationError
and runs no per-version query; with two or more ids it returns one entry per
requested version id, in order, each entry's outcome being that version's own
pipeline result (so a failing version yields an error entry without aborting
the comparison, whose overall result stays a success). -/
theorem compareVersions_per_version (runOne : String → String → Except String String)
    (q : String) (ids : List String) :
    (ids.length < 2 →
      compareVersions runOne q ids = (Except.error StoreError.validationError, [])) ∧
    (2 ≤ ids.length → ∃ entries : List CompareEntry,
      compareVersions runOne q ids = (Except.ok (entries, ids.length), ids) ∧
      entries.map CompareEntry.version_id = ids ∧
      ∀ e ∈ entries, e.outcome = runOne q e.version_id) := by
  constructor
  · intro h
    simp [compareVersions, h]
  · intro h
    refine ⟨ids.map (fun vid => { version_id := vid, outcome := runOne q vid }), ?_, ?_, ?_⟩
    · simp [compareVersions, Nat.not_lt.2 h]
    · exact map_entry_version_id (fun vid => runOne q vid) ids
    · intro e he
      simp only [List.mem_map] at he
      obtain ⟨vid, _, rfl⟩ := he
      rfl

/-- C1 witness: a concrete comparison of two versions, one of which fails. -/
theorem compareVersions_per_version_witness :
    ∃ entries : List CompareEntry,
      compareVersions
        (fun _ vid => if vid = "v1" then Except.ok "ans1" else Except.error "index corrupt")
        "what changed?" ["v1", "v2"] =
        (Except.ok (entries, (["v1", "v2"] : List String).length), ["v1", "v2"]) ∧
      entries.map CompareEntry.version_id = ["v1", "v2"] ∧
      ∀ e ∈ entries, e.outcome =
        (fun _ vid => if vid = "v1" then Except.ok "ans1" else Except.error "index corrupt")
          "what changed?" e.version_id :=
  (compareVersions_per_version
    (fun _ vid => if vid = "v1" then Except.ok "ans1" else Except.error "index corrupt")
    "what changed?" ["v1", "v2"]).2 (by decide)

/-- C7: a query whose supplied version id is absent from the registry, or names
a version whose status is deleted, fails with NotFound and performs no
similarity-search retrieval and no generative-model call. -/
theorem runQuery_unknown_version_notFound (vs : List Version)
    (retrieve : String → List String) (generate : String → Except Unit String)
    (q : String) (vid : String)
    (h : ∀ v ∈ vs, v.version_id = vid → v.status = VStatus.deleted) :
    runQuery vs retrieve generate q (some vid) = (Except.error QueryError.notFound, []) := by
  have hget : getVersion vs vid = none := by
    unfold getVersion
    cases hf : vs.find? (fun v => v.version_id == vid) with
    | none => rfl
    | some v =>
      have hmem := List.mem_of_find?_eq_some hf
      have hp : v.version_id = vid := by simpa using List.find?_some hf
      simp [h v hmem hp]
  simp [runQuery, hget]

/-- C7 witness: querying a deleted version id in a concrete registry. -/
theorem runQuery_unknown_version_notFound_witness :
    runQuery
      [{ version_id := "v1", version_name := "one", description := "", tags := [],
         upload_timestamp := 5, status := VStatus.deleted }]
      (fun _ => ["chunk"]) (fun p => Except.ok p) "question" (some "v1") =
      (Except.error QueryError.notFound, []) :=
  runQuery_unknown_version_notFound _ _ _ _ _ (by decide)

/-- Helper: toggling an id that is in the selection filters out every occurrence. -/
theorem toggle_mem_eq (prev : List String) (vid : String) (h : vid ∈ prev) :
    toggleVersionSelection prev vid = prev.filter (fun id => id != vid) := by
  have hc : prev.contains vid = true := by simpa using h
  unfold toggleVersionSelection
  rw [if_pos hc]

/-- Helper: toggling an id that is not in the selection appends it once. -/
theorem toggle_not_mem_eq (prev : List String) (vid : String) (h : vid ∉ prev) :
    toggleVersionSelection prev vid = prev ++ [vid] := by
  have hc : ¬ prev.contains vid = true := by simpa using h
  unfold toggleVersionSelection
  rw [if_neg hc]

/-- C10: `toggleVersionSelection` flips membership of a version id: when the id
is present every occurrence is removed, otherwise it is appended once; and,
from a duplicate-free selection, toggling the same id twice yields a selection
equal as a set to the original. -/
theorem toggleVersionSelection_spec (prev : List String) (vid : String)
    (hnd : prev.Nodup) :
    (vid ∈ prev → toggleVersionSelection prev vid = prev.filter (fun id => id != vid) ∧
      vid ∉ toggleVersionSelection prev vid) ∧
    (vid ∉ prev → toggleVersionSelection prev vid = prev ++ [vid]) ∧
    (vid ∈ toggleVersionSelection prev vid ↔ vid ∉ prev) ∧
    (∀ x, x ∈ toggleVersionSelection (toggleVersionSelection prev vid) vid ↔ x ∈ prev) := by
  by_cases h : vid ∈ prev
  · have h1 := toggle_mem_eq prev vid h
    have h2 : vid ∉ prev.filter (fun id => id != vid) := by
      simp [List.mem_filter]
    have h3 : toggleVersionSelection (toggleVersionSelection prev vid) vid =
        prev.filter (fun id => id != vid) ++ [vid] := by
      rw [h1, toggle_not_mem_eq _ _ h2]
    refine ⟨fun _ => ⟨h1, h1 ▸ h2⟩, fun hc => absurd h hc, ?_, ?_⟩
    · rw [h1]
      simp [h2, h]
    · intro x
      rw [h3]
      simp only [List.mem_append, List.mem_filter, List.mem_singleton, bne_iff_ne,
        decide_eq_true_eq]
      constructor
      · rintro (⟨hx, _⟩ | rfl)
        · exact hx
        · exact h
      · intro hx
        by_cases hxv : x = vid
        · exact Or.inr hxv
        · exact Or.inl ⟨hx, hxv⟩
  · have h1 := toggle_not_mem_eq prev vid h
    have h2 : vid ∈ prev ++ [vid] := by simp
    have h4 : (prev ++ [vid]).filter (fun id => id != vid) = prev := by
      rw [List.filter_append]
      have h5 : prev.filter (fun id => id != vid) = prev := by
        apply List.filter_eq_self.mpr
        intro x hx
        simp only [bne_iff_ne, ne_eq, decide_eq_true_eq]
        rintro rfl
        exact h hx
      simp [h5]
    have h3 : toggleVersionSelection (toggleVersionSelection prev vid) vid = prev := by
      rw [h1, toggle_mem_eq _ _ h2, h4]
    refine ⟨fun hc => absurd hc h, fun _ => h1, ?_, ?_⟩
    · rw [h1]
      simp [h]
    · intro x
      rw [h3]

/-- C10 witness: toggling a selected id on a concrete duplicate-free selection. -/
theorem toggleVersionSelection_spec_witness :
    toggleVersionSelection ["v1", "v2"] "v2" =
      List.filter (fun id => id != "v2") ["v1", "v2"] ∧
    ("v2" ∈ toggleVersionSelection ["v1", "v2"] "v2" ↔ "v2" ∉ ["v1", "v2"]) :=
  ⟨((toggleVersionSelection_spec ["v1", "v2"] "v2" (by decide)).1 (by decide)).1,
   (toggleVersionSelection_spec ["v1", "v2"] "v2" (by decide)).2.2.1⟩

/-- C6: `resolveLatest` returns none on an empty registry; any version it
returns is an active member of the registry with maximal upload timestamp among
the active versions; it returns some version whenever an active version exists;
and its result is unchanged by the presence of archived or deleted versions. -/
theorem resolveLatest_spec :
    resolveLatest [] = none ∧
    (∀ (vs : List Version) (m : Version), resolveLatest vs = some m →
      m ∈ vs ∧ m.status = VStatus.active ∧
      ∀ w ∈ vs, w.status = VStatus.active → w.upload_timestamp ≤ m.upload_timestamp) ∧
    (∀ vs : List Version, (∃ v ∈ vs, v.status = VStatus.active) →
      ∃ m, resolveLatest vs = some m) ∧
    (∀ vs ws : List Version, (∀ w ∈ ws, w.status ≠ VStatus.active) →
      resolveLatest (vs ++ ws) = resolveLatest vs) := by
  refine ⟨rfl, ?_, ?_, ?_⟩
  · intro vs m hm
    have hmem : m ∈ vs.filter (fun v => decide (v.status = VStatus.active)) :=
      List.argmax_mem hm
    have hmem' := List.mem_filter.mp hmem
    refine ⟨hmem'.1, by simpa using hmem'.2, ?_⟩
    intro w hw hwact
    have hwf : w ∈ vs.filter (fun v => decide (v.status = VStatus.active)) :=
      List.mem_filter.mpr ⟨hw, by simp [hwact]⟩
    exact List.le_of_mem_argmax hwf hm
  · intro vs hex
    obtain ⟨v, hv, hact⟩ := hex
    have hvf : v ∈ vs.filter (fun v => decide (v.status = VStatus.active)) :=
      List.mem_filter.mpr ⟨hv, by simp [hact]⟩
    cases hres : resolveLatest vs with
    | some m => exact ⟨m, rfl⟩
    | none =>
      have : vs.filter (fun v => decide (v.status = VStatus.active)) = [] :=
        List.argmax_eq_none.mp hres
      rw [this] at hvf
      cases hvf
  · intro vs ws hws
    unfold resolveLatest
    rw [List.filter_append]
    have : ws.filter (fun v => decide (v.status = VStatus.active)) = [] := by
      rw [List.filter_eq_nil_iff]
      intro w hw
      simpa using hws w hw
    rw [this, List.append_nil]

/-- C6 witness: a concrete registry where the newest version is archived. -/
theorem resolveLatest_spec_witness :
    resolveLatest
      ([{ version_id := "a-1", version_name := "a", description := "", tags := [],
          upload_timestamp := 1, status := VStatus.active },
        { version_id := "a-2", version_name := "b", description := "", tags := [],
          upload_timestamp := 2, status := VStatus.active }] ++
       [{ version_id := "a-9", version_name := "c", description := "", tags := [],
          upload_timestamp := 9, status := VStatus.archived }]) =
    resolveLatest
      [{ version_id := "a-1", version_name := "a", description := "", tags := [],
         upload_timestamp := 1, status := VStatus.active },
       { version_id := "a-2", version_name := "b", description := "", tags := [],
         upload_timestamp := 2, status := VStatus.active }] :=
  resolveLatest_spec.2.2.2 _ _ (by decide)

/-- Helper: `listContainsSub` decides the contiguous-sublist relation. -/
theorem listContainsSub_iff (pat hay : List Char) :
    listContainsSub pat hay = true ↔ pat <:+: hay := by
  induction hay with
  | nil => simp [listContainsSub, List.isEmpty_iff, List.infix_nil]
  | cons c t ih =>
    simp [listContainsSub, Bool.or_eq_true, List.isPrefixOf_iff_prefix, ih,
      List.infix_cons_iff]

/-- Helper: `jsIncludes` decides the substring relation, as JavaScript
`includes` does. -/
theorem jsIncludes_iff (hay pat : String) :
    jsIncludes hay pat = true ↔ pat.data <:+: hay.data :=
  listContainsSub_iff pat.data hay.data

/-- C2 counterexample: the frontend version filter does not implement the
claimed match over name, description and tags.  A version whose description
(and tag) contains the query but whose name and id do not is not returned,
although the claim requires it; a version whose id contains the query but whose
name, description and tags do not is returned, although the claim excludes
it. -/
theorem filteredVersions_spec_mismatch :
    specSearchMatch "stable"
      { version_name := "alpha", version_id := "alpha-1", description := "stable build",
        tags := ["stable"] } = true ∧
    ({ version_name := "alpha", version_id := "alpha-1", description := "stable build",
        tags := ["stable"] } : VSummary) ∉
      filteredVersions
        [{ version_name := "alpha", version_id := "alpha-1", description := "stable build",
           tags := ["stable"] }] "stable" ∧
    specSearchMatch "7"
      { version_name := "beta", version_id := "alpha-7", description := "", tags := [] } =
      false ∧
    ({ version_name := "beta", version_id := "alpha-7", description := "", tags := [] } :
        VSummary) ∈
      filteredVersions
        [{ version_name := "beta", version_id := "alpha-7", description := "", tags := [] }]
        "7" := by
  decide

/-- C2 (amended): the frontend version search returns exactly those versions
for which the query occurs as a case-insensitive substring of the version's
name or of its version id (description and tags are not consulted). -/
theorem filteredVersions_matches_name_or_id (versions : List VSummary) (q : String)
    (v : VSummary) :
    v ∈ filteredVersions versions q ↔
      v ∈ versions ∧
        ((lowerStr q).data <:+: (lowerStr v.version_name).data ∨
         (lowerStr q).data <:+: (lowerStr v.version_id).data) := by
  unfold filteredVersions
  rw [List.mem_filter]
  refine and_congr_right fun _ => ?_
  rw [Bool.or_eq_true, jsIncludes_iff, jsIncludes_iff]

/-- C8: `formatFileSize` maps 0 to `"0 Bytes"`, and for every byte count from
1 up to (but excluding) 1024⁴ the unit index — the floor of the base-1024
logarithm — stays within the four-element `sizes` array, so the result is the
two-decimal rendering of the scaled value, a space, and one of `"Bytes"`,
`"KB"`, `"MB"`, `"GB"`. -/
theorem formatFileSize_safe :
    formatFileSize 0 = "0 Bytes" ∧
    ∀ b : Nat, 1 ≤ b → b < 1024 ^ 4 →
      Nat.log 1024 b < sizes.length ∧
      sizes.getD (Nat.log 1024 b) "undefined" ∈ sizes ∧
      formatFileSize b =
        renderFixed2
            ((⌊(b : ℚ) / (1024 : ℚ) ^ Nat.log 1024 b * 100 + 1 / 2⌋).toNat) ++
          " " ++ sizes.getD (Nat.log 1024 b) "undefined" := by
  refine ⟨rfl, ?_⟩
  intro b hb1 hb4
  have hb0 : b ≠ 0 := by omega
  have hlog : Nat.log 1024 b < 4 := Nat.log_lt_of_lt_pow hb0 hb4
  have hlen : sizes.length = 4 := rfl
  refine ⟨by rw [hlen]; exact hlog, ?_, ?_⟩
  · have hall : ∀ i < 4, sizes.getD i "undefined" ∈ sizes := by decide
    exact hall _ hlog
  · simp [formatFileSize, hb0]

/-- C8 witness: 5000 bytes format as a two-decimal number of kilobytes. -/
theorem formatFileSize_safe_witness :
    Nat.log 1024 5000 < sizes.length ∧
    sizes.getD (Nat.log 1024 5000) "undefined" ∈ sizes ∧
    formatFileSize 5000 =
      renderFixed2
          ((⌊(5000 : ℚ) / (1024 : ℚ) ^ Nat.log 1024 5000 * 100 + 1 / 2⌋).toNat) ++
        " " ++ sizes.getD (Nat.log 1024 5000) "undefined" :=
  formatFileSize_safe.2 5000 (by decide) (by decide)

/-- C9: with the dropdown open and the highlighted index in the range `-1 .. n`
(where `n` is the number of filtered versions, the dropdown showing `n + 1`
selectable options), every key keeps the index in that range; ArrowDown maps
`i` to `(i + 1) mod (n + 1)`; ArrowUp maps `i ≤ 0` to `n` and otherwise to
`i - 1`; Escape resets the index to `-1`; Enter at index `0` selects the
latest-version (null) option, and at index `i > 0` selects the `(i-1)`-th
filtered version, which exists. -/
theorem handleKeyDown_spec (versions : List VSummary) (s : QPState)
    (hlo : -1 ≤ s.highlightedIndex)
    (hhi : s.highlightedIndex ≤ (filteredVersions versions s.versionSearchTerm).length)
    (hopen : s.isVersionDropdownOpen = true) :
    (∀ k : Key, -1 ≤ (handleKeyDown versions s k).highlightedIndex ∧
      (handleKeyDown versions s k).highlightedIndex ≤
        (filteredVersions versions s.versionSearchTerm).length) ∧
    (handleKeyDown versions s Key.arrowDown).highlightedIndex =
      (s.highlightedIndex + 1) %
        ((filteredVersions versions s.versionSearchTerm).length + 1) ∧
    (handleKeyDown versions s Key.arrowUp).highlightedIndex =
      (if s.highlightedIndex ≤ 0 then
        ((filteredVersions versions s.versionSearchTerm).length : Int)
       else s.highlightedIndex - 1) ∧
    (handleKeyDown versions s Key.escape).highlightedIndex = -1 ∧
    (s.highlightedIndex = 0 →
      (handleKeyDown versions s Key.enter).selectedVersion = none ∧
      (handleKeyDown versions s Key.enter).versionId = "") ∧
    (0 < s.highlightedIndex →
      (handleKeyDown versions s Key.enter).selectedVersion =
        (filteredVersions versions s.versionSearchTerm)[(s.highlightedIndex - 1).toNat]? ∧
      ((filteredVersions versions s.versionSearchTerm)[(s.highlightedIndex - 1).toNat]?).isSome
        = true) := by
  have hdown : handleKeyDown versions s Key.arrowDown =
      { s with highlightedIndex :=
          (jsRem (s.highlightedIndex + 1)
            ((filteredVersions versions s.versionSearchTerm).length + 1)) } := by
    unfold handleKeyDown
    rw [hopen]
    rfl
  have hup : handleKeyDown versions s Key.arrowUp =
      { s with highlightedIndex :=
          if s.highlightedIndex ≤ 0 then
            ((filteredVersions versions s.versionSearchTerm).length : Int) + 1 - 1
          else s.highlightedIndex - 1 } := by
    unfold handleKeyDown
    rw [hopen]
    rfl
  have hesc : handleKeyDown versions s Key.escape =
      { s with isVersionDropdownOpen := false, highlightedIndex := -1 } := by
    unfold handleKeyDown
    rw [hopen]
    rfl
  have hother : handleKeyDown versions s Key.other = s := by
    unfold handleKeyDown
    rw [hopen]
    rfl
  have henter : handleKeyDown versions s Key.enter =
      (if s.highlightedIndex = 0 then selectVersion s none
       else if 0 < s.highlightedIndex then
         selectVersion s
           ((filteredVersions versions s.versionSearchTerm)[(s.highlightedIndex - 1).toNat]?)
       else s) := by
    unfold handleKeyDown
    rw [hopen]
    rfl
  have hjs : jsRem (s.highlightedIndex + 1)
      ((filteredVersions versions s.versionSearchTerm).length + 1) =
      (s.highlightedIndex + 1) %
        ((filteredVersions versions s.versionSearchTerm).length + 1) := by
    unfold jsRem
    rw [if_neg]
    omega
  have hmodlo : (0 : Int) ≤ (s.highlightedIndex + 1) %
      ((filteredVersions versions s.versionSearchTerm).length + 1) :=
    Int.emod_nonneg _ (by omega)
  have hmodhi : (s.highlightedIndex + 1) %
      ((filteredVersions versions s.versionSearchTerm).length + 1) <
      ((filteredVersions versions s.versionSearchTerm).length : Int) + 1 :=
    Int.emod_lt_of_pos _ (by omega)
  refine ⟨?_, ?_, ?_, ?_, ?_, ?_⟩
  · intro k
    cases k
    · rw [hdown]
      simp only [hjs]
      omega
    · rw [hup]
      constructor <;> (simp only; split <;> omega)
    · rw [henter]
      split
      · simp only [selectVersion]
        omega
      · split
        · simp only [selectVersion]
          omega
        · exact ⟨hlo, hhi⟩
    · rw [hesc]
      simp only
      omega
    · rw [hother]
      exact ⟨hlo, hhi⟩
  · rw [hdown]
    simp only [hjs]
  · rw [hup]
    simp only
    split <;> omega
  · rw [hesc]
  · intro h0
    rw [henter, if_pos h0]
    exact ⟨rfl, rfl⟩
  · intro hpos
    have hne : ¬ s.highlightedIndex = 0 := by omega
    rw [henter, if_neg hne, if_pos hpos]
    refine ⟨rfl, ?_⟩
    have hidx : (s.highlightedIndex - 1).toNat <
        (filteredVersions versions s.versionSearchTerm).length := by omega
    rw [List.getElem?_eq_getElem hidx]
    rfl

/-- C9 witness: Escape resets the highlighted index on a concrete dropdown
state with one filtered version and index 1. -/
theorem handleKeyDown_spec_witness :
    (handleKeyDown
      [{ version_name := "alpha", version_id := "a-1", description := "", tags := [] }]
      { versionSearchTerm := "", isVersionDropdownOpen := true, highlightedIndex := 1,
        selectedVersion := none, versionId := "" } Key.escape).highlightedIndex = -1 :=
  (handleKeyDown_spec
    [{ version_name := "alpha", version_id := "a-1", description := "", tags := [] }]
    { versionSearchTerm := "", isVersionDropdownOpen := true, highlightedIndex := 1,
      selectedVersion := none, versionId := "" }
    (by decide) (by decide) rfl).2.2.2.1

/-- Helper: the fallback stride is positive on nonempty content. -/
theorem strideOf_pos (W O : Nat) (pick : List Char → Nat) (c : Char) (t : List Char) :
    1 ≤ strideOf W O pick (c :: t) := by
  have h : 1 ≤ (c :: t).length := by simp
  unfold strideOf
  omega

/-- Helper: the fallback stride never passes the end of the content. -/
theorem strideOf_le (W O : Nat) (pick : List Char → Nat) (s : List Char) :
    strideOf W O pick s ≤ s.length := by
  unfold strideOf
  omega

/-- Helper: dropping the overlap from every fallback chunk and concatenating
yields the content with its first `O` characters dropped. -/
theorem fallbackChunksAux_drop_flatten (W O : Nat) (pick : List Char → Nat) :
    ∀ (fuel : Nat) (s : List Char), s.length ≤ fuel →
      ((fallbackChunksAux W O pick fuel s).map (List.drop O)).flatten = s.drop O := by
  intro fuel
  induction fuel with
  | zero =>
    intro s hs
    have h0 : s = [] := by
      cases s with
      | nil => rfl
      | cons a t => simp at hs
    subst h0
    simp [fallbackChunksAux]
  | succ n ih =>
    intro s hs
    cases s with
    | nil => simp [fallbackChunksAux]
    | cons c t =>
      by_cases hk : strideOf W O pick (c :: t) = (c :: t).length
      · simp [fallbackChunksAux, hk]
      · have hpos := strideOf_pos W O pick c t
        have hle := strideOf_le W O pick (c :: t)
        have hrec : ((c :: t).drop (strideOf W O pick (c :: t))).length ≤ n := by
          simp only [List.length_drop]
          simp only [List.length_cons] at hs ⊢
          omega
        simp only [fallbackChunksAux, if_neg hk, List.map_cons, List.flatten_cons, ih _ hrec]
        rw [List.drop_drop, List.drop_take, Nat.add_sub_cancel]
        have hcomm : strideOf W O pick (c :: t) + O =
            O + strideOf W O pick (c :: t) := Nat.add_comm _ _
        rw [hcomm, ← List.drop_drop, List.take_append_drop]

/-- Helper: the fallback chunk sequence reconstructs the content after the
overlap of every chunk but the first is removed. -/
theorem fallbackChunksAux_recon (W O : Nat) (pick : List Char → Nat) :
    ∀ (fuel : Nat) (s : List Char), s.length ≤ fuel →
      reconChunks O (fallbackChunksAux W O pick fuel s) = s := by
  intro fuel s hs
  cases fuel with
  | zero =>
    have h0 : s = [] := by
      cases s with
      | nil => rfl
      | cons a t => simp at hs
    subst h0
    rfl
  | succ n =>
    cases s with
    | nil => rfl
    | cons c t =>
      by_cases hk : strideOf W O pick (c :: t) = (c :: t).length
      · simp [fallbackChunksAux, hk, reconChunks]

      · have hpos := strideOf_pos W O pick c t
        have hrec : ((c :: t).drop (strideOf W O pick (c :: t))).length ≤ n := by
          simp only [List.length_drop]
          simp only [List.length_cons] at hs ⊢
          omega
        simp only [fallbackChunksAux, if_neg hk, reconChunks,
          fallbackChunksAux_drop_flatten W O pick n _ hrec]
        rw [List.drop_drop, List.take_append_drop]

/-- Helper: every fallback chunk respects the configured maximum size when the
overlap is smaller than the maximum. -/
theorem fallbackChunksAux_bound (W O : Nat) (pick : List Char → Nat) (hWO : O < W) :
    ∀ (fuel : Nat) (s : List Char), ∀ chunk ∈ fallbackChunksAux W O pick fuel s,
      chunk.length ≤ W := by
  intro fuel
  induction fuel with
  | zero =>
    intro s chunk hc
    cases s with
    | nil => cases hc
    | cons c t => cases hc
  | succ n ih =>
    intro s chunk hc
    cases s with
    | nil => cases hc
    | cons c t =>
      have hstride : strideOf W O pick (c :: t) ≤ W - O := by
        unfold strideOf
        omega
      by_cases hk : strideOf W O pick (c :: t) = (c :: t).length
      · simp only [fallbackChunksAux, if_pos hk, List.mem_singleton] at hc
        subst hc
        omega
      · simp only [fallbackChunksAux, if_neg hk, List.mem_cons] at hc
        rcases hc with hc | hc
        · subst hc
          simp only [List.length_take]
          omega
        · exact ih _ chunk hc

/-- Helper: the heading scan partitions the input: its sections concatenate to
the accumulator followed by the remaining input. -/
theorem sectionsAux_flatten :
    ∀ (t : List Char) (lineStart : Bool) (cur : List Char),
      (sectionsAux lineStart cur t).flatten = cur.reverse ++ t := by
  intro t
  induction t with
  | nil =>
    intro ls cur
    simp [sectionsAux]
  | cons c t ih =>
    intro ls cur
    by_cases hb : (ls && c == '#' && !cur.isEmpty) = true
    · simp only [sectionsAux, if_pos hb, List.flatten_cons, ih]
      simp
    · simp only [sectionsAux, if_neg hb, ih]
      simp

/-- Helper: the heading sections concatenate to the original content. -/
theorem splitSections_flatten (s : List Char) : (splitSections s).flatten = s := by
  cases s with
  | nil => rfl
  | cons c t =>
    unfold splitSections
    rw [sectionsAux_flatten]
    rfl

/-- Helper: one heading section's chunks reconstruct that section. -/
theorem sectionChunks_recon (W O : Nat) (pick : List Char → Nat) (sec : List Char) :
    reconChunks O (sectionChunks W O pick sec) = sec := by
  unfold sectionChunks
  split
  · simp [reconChunks]
  · exact fallbackChunksAux_recon W O pick sec.length sec (Nat.le_refl _)

/-- Helper: pattern-based chunks partition the content. -/
theorem patternChunksAux_flatten (blockLen : List Char → Nat) :
    ∀ (fuel : Nat) (s : List Char), s.length ≤ fuel →
      (patternChunksAux blockLen fuel s).flatten = s := by
  intro fuel
  induction fuel with
  | zero =>
    intro s hs
    have h0 : s = [] := by
      cases s with
      | nil => rfl
      | cons a t => simp at hs
    subst h0
    simp [patternChunksAux]
  | succ n ih =>
    intro s hs
    cases s with
    | nil => simp [patternChunksAux]
    | cons c t =>
      have hrec :
          ((c :: t).drop (min (max 1 (blockLen (c :: t))) (c :: t).length)).length ≤ n := by
        simp only [List.length_drop]
        simp only [List.length_cons] at hs ⊢
        omega
      simp only [patternChunksAux, List.flatten_cons, ih _ hrec, List.take_append_drop]

/-- Helper: the heading-aware chunk groups, each reconstructed and then
concatenated in order, give back the content. -/
theorem headingChunkGroups_recon (W O : Nat) (pick : List Char → Nat) (s : List Char) :
    ((headingChunkGroups W O pick s).map (reconChunks O)).flatten = s := by
  unfold headingChunkGroups
  rw [List.map_map]
  have hcongr : (splitSections s).map (reconChunks O ∘ sectionChunks W O pick) =
      (splitSections s).map id := by
    apply List.map_congr_left
    intro sec _
    exact sectionChunks_recon W O pick sec
  rw [hcongr, List.map_id, splitSections_flatten]

/-- Helper: every heading-aware chunk respects the configured maximum size when
the overlap is smaller than the maximum. -/
theorem headingChunks_bound (W O : Nat) (pick : List Char → Nat) (hWO : O < W)
    (s : List Char) : ∀ chunk ∈ headingChunks W O pick s, chunk.length ≤ W := by
  intro chunk hc
  unfold headingChunks at hc
  rw [List.mem_flatten] at hc
  obtain ⟨group, hg, hcg⟩ := hc
  unfold headingChunkGroups at hg
  rw [List.mem_map] at hg
  obtain ⟨sec, _, rfl⟩ := hg
  unfold sectionChunks at hcg
  by_cases hsec : sec.length ≤ W
  · rw [if_pos hsec, List.mem_singleton] at hcg
    subst hcg
    exact hsec
  · rw [if_neg hsec] at hcg
    exact fallbackChunksAux_bound W O pick hWO sec.length sec chunk hcg

/-- C4 counterexample: the structured-source strategy's chunks contain a
synthesized signature line in addition to the verbatim span, so concatenating
them — plainly or after removing the configured overlap (100 characters, per
the configured default) from each non-first chunk — does not reconstruct the
original file content, already for a one-function file. -/
theorem structuredChunks_not_reconstruct :
    (structuredChunks
        [{ sig := "# signature: f()\n".data, span := "def f(): pass".data }]).flatten ≠
      sourceOf [{ sig := "# signature: f()\n".data, span := "def f(): pass".data }] ∧
    reconChunks 100
        (structuredChunks
          [{ sig := "# signature: f()\n".data, span := "def f(): pass".data }]) ≠
      sourceOf [{ sig := "# signature: f()\n".data, span := "def f(): pass".data }] := by
  decide

/-- C4 (amended): chunking and concatenating in sequence order reconstructs
the file content for the pattern-based strategy (whose blocks partition the
content exactly), for the fallback strategy (after the configured overlap
duplicated between adjacent chunks is dropped from each non-first chunk), and
for the heading-aware strategy (per heading section, sections concatenating
exactly); the structured-source strategy is excluded, since its chunks add a
synthesized signature line to the verbatim span. -/
theorem chunk_reconstruction :
    (∀ (blockLen : List Char → Nat) (s : List Char),
      (patternChunks blockLen s).flatten = s) ∧
    (∀ (W O : Nat) (pick : List Char → Nat) (s : List Char),
      reconChunks O (fallbackChunks W O pick s) = s) ∧
    (∀ (W O : Nat) (pick : List Char → Nat) (s : List Char),
      ((headingChunkGroups W O pick s).map (reconChunks O)).flatten = s) := by
  refine ⟨?_, ?_, ?_⟩
  · intro blockLen s
    exact patternChunksAux_flatten blockLen s.length s (Nat.le_refl _)
  · intro W O pick s
    exact fallbackChunksAux_recon W O pick s.length s (Nat.le_refl _)
  · intro W O pick s
    exact headingChunkGroups_recon W O pick s

/-- Helper: the pattern scan of empty content is empty, whatever the fuel. -/
theorem patternChunksAux_nil (blockLen : List Char → Nat) (fuel : Nat) :
    patternChunksAux blockLen fuel [] = [] := by
  cases fuel <;> rfl

/-- Helper: when the detected block covers the whole content, the pattern-based
strategy emits it as a single verbatim chunk. -/
theorem patternChunks_whole (blockLen : List Char → Nat) (c : Char) (t : List Char)
    (h : (c :: t).length ≤ blockLen (c :: t)) :
    patternChunks blockLen (c :: t) = [c :: t] := by
  unfold patternChunks
  have hk : min (max 1 (blockLen (c :: t))) (c :: t).length = (c :: t).length := by
    have h1 : 1 ≤ (c :: t).length := by simp
    omega
  rw [show (c :: t).length = t.length + 1 from rfl]
  simp only [patternChunksAux]
  rw [hk, List.take_length, List.drop_length, patternChunksAux_nil]

/-- C5 counterexample: the structured-source strategy emits one chunk per
top-level block containing the verbatim span, and the pattern-based strategy
emits detected blocks verbatim, so a single block longer than the configured
maximum (1000 characters, per the configured default) becomes a chunk exceeding
that maximum under either strategy. -/
theorem structuredChunks_oversize :
    List.replicate 1001 'a' ∈
      structuredChunks [{ sig := [], span := List.replicate 1001 'a' }] ∧
    List.replicate 1001 'a' ∈
      patternChunks (fun _ => 1001) (List.replicate 1001 'a') ∧
    1000 < (List.replicate 1001 'a').length := by
  refine ⟨?_, ?_, ?_⟩
  · simp only [structuredChunks, List.map_cons, List.map_nil, List.nil_append,
      List.mem_singleton]
  · rw [List.replicate_succ,
      patternChunks_whole (fun _ => 1001) 'a' (List.replicate 1000 'a')
        (by simp only [List.length_cons, List.length_replicate]; omega)]
    exact List.mem_singleton.mpr rfl
  · simp only [List.length_replicate]
    omega

/-- C5 (amended): when the configured overlap is smaller than the configured
maximum chunk size, every chunk produced by the fallback strategy and by the
heading-aware strategy has text length at most the maximum; the
structured-source and pattern-based strategies emit detected blocks verbatim,
so their chunks exceed the maximum when a single detected block does. -/
theorem chunk_size_bound (W O : Nat) (pick : List Char → Nat) (s : List Char)
    (hWO : O < W) :
    (∀ chunk ∈ fallbackChunks W O pick s, chunk.length ≤ W) ∧
    (∀ chunk ∈ headingChunks W O pick s, chunk.length ≤ W) :=
  ⟨fun chunk hc => fallbackChunksAux_bound W O pick hWO s.length s chunk hc,
   fun chunk hc => headingChunks_bound W O pick hWO s chunk hc⟩

/-- C5 witness: a concrete fallback chunk of a 8-character file with window 5
and overlap 1 respects the maximum size. -/
theorem chunk_size_bound_witness : ("abcde".data).length ≤ 5 :=
  (chunk_size_bound 5 1 (fun _ => 100) "abcdefgh".data (by decide)).1
    "abcde".data (by decide)
